import Mathlib

set_option maxHeartbeats 1000000

/-! Verification of the state-synchronization core of `baseline.go`, a
terminal dashboard holding a todo list, a bounded notification queue, a
bounded metric history, a weather snapshot, themes and a single-line
command dispatcher.

Strings are modelled with Lean `String`.  The ASCII fragments of Go's
`strings.ToLower`, `strings.TrimSpace`, `strings.Fields`, `strings.Join`
and `strconv.Atoi` are reproduced below (every token the dispatcher
inspects is ASCII).  `time.Time` values are modelled as abstract `Int`
ticks supplied by the caller, and floating-point readings that are stored
but never computed with are modelled as `ℚ`. -/

/-- ASCII core of Go `unicode.IsSpace`, the predicate `strings.Fields` and
`strings.TrimSpace` split on: space, tab, newline, vertical tab, form feed
and carriage return. -/
def goIsSpace (c : Char) : Bool :=
  decide (c.toNat = 32 ∨ (9 ≤ c.toNat ∧ c.toNat ≤ 13))

/-- ASCII core of Go `strings.ToLower`, characterwise. -/
def goToLowerChar (c : Char) : Char :=
  if 65 ≤ c.toNat ∧ c.toNat ≤ 90 then Char.ofNat (c.toNat + 32) else c

/-- Go `strings.ToLower` (ASCII fragment). -/
def goToLower (s : String) : String := ⟨s.data.map goToLowerChar⟩

/-- Go `strings.TrimSpace`: drop leading and trailing whitespace. -/
def goTrimSpace (s : String) : String :=
  ⟨((s.data.dropWhile goIsSpace).reverse.dropWhile goIsSpace).reverse⟩

/-- Worker for `goFields`: split on whitespace, discarding empty words;
`acc` holds the current word reversed. -/
def goFieldsAux : List Char → List Char → List (List Char)
  | [], acc => if acc.isEmpty then [] else [acc.reverse]
  | c :: cs, acc =>
    if goIsSpace c then
      if acc.isEmpty then goFieldsAux cs [] else acc.reverse :: goFieldsAux cs []
    else goFieldsAux cs (c :: acc)

/-- Go `strings.Fields`: whitespace-delimited tokens, no empties. -/
def goFields (s : String) : List String := (goFieldsAux s.data []).map fun w => ⟨w⟩

/-- Decimal digit character for `m % 10`. -/
def digitChar : Nat → Char
  | 0 => '0' | 1 => '1' | 2 => '2' | 3 => '3' | 4 => '4'
  | 5 => '5' | 6 => '6' | 7 => '7' | 8 => '8' | _ => '9'

/-- Worker for `natToString`: most-significant-first decimal digits of `n`
prepended to `acc`. -/
def natToDigitsAux (n : Nat) (acc : List Char) : List Char :=
  if h : n < 10 then digitChar n :: acc
  else natToDigitsAux (n / 10) (digitChar (n % 10) :: acc)
termination_by n
decreasing_by exact Nat.div_lt_self (by omega) (by omega)

/-- Decimal rendering of a natural number (Go `strconv.Itoa` on
non-negative values, as used by `fmt.Sprintf("%d", _)` here). -/
def natToString (n : Nat) : String := ⟨natToDigitsAux n []⟩

/-- Number of decimal digits of `n` (used to reason about `natToDigitsAux`). -/
def numDigits (n : Nat) : Nat :=
  if h : n < 10 then 1 else numDigits (n / 10) + 1
termination_by n
decreasing_by exact Nat.div_lt_self (by omega) (by omega)

/-- Digit-run parser for `goAtoi`; fails on the first non-digit. -/
def parseDigitsLoop : List Char → Nat → Option Nat
  | [], acc => some acc
  | c :: cs, acc =>
    if 48 ≤ c.toNat ∧ c.toNat ≤ 57 then parseDigitsLoop cs (acc * 10 + (c.toNat - 48))
    else none

/-- Nonempty all-digit run parser. -/
def parseAllDigits : List Char → Option Nat
  | [] => none
  | c :: cs => parseDigitsLoop (c :: cs) 0

/-- Go `strconv.Atoi` on an optional sign followed by decimal digits
(overflow is not modelled; the dispatcher only ever consumes small
indices). -/
def goAtoi (s : String) : Option Int :=
  match s.data with
  | [] => none
  | c :: cs =>
    if c = '+' then (parseAllDigits cs).map (fun n => (n : Int))
    else if c = '-' then (parseAllDigits cs).map (fun n => -(n : Int))
    else (parseAllDigits (c :: cs)).map (fun n => (n : Int))

/-- Go `strings.Join xs " "`. -/
def joinSp : List String → String
  | [] => ""
  | [x] => x
  | x :: xs => x ++ " " ++ joinSp xs

/-- Go `strings.Join xs ", "`. -/
def joinComma : List String → String
  | [] => ""
  | [x] => x
  | x :: xs => x ++ ", " ++ joinComma xs

/-- Go struct `TodoItem` (baseline.go:71). -/
structure TodoItem where
  Text : String
  Done : Bool
  Priority : String
deriving DecidableEq, Repr

/-- Go struct `Notification` (baseline.go:77).  `kind` is the Go field
`Type` ("info", "error" or "success"), renamed because `Type` is a Lean
keyword; `Time` is the abstract timestamp tick. -/
structure Notification where
  Message : String
  kind : String
  Time : Int
deriving DecidableEq, Repr

/-- Go struct `Theme` (baseline.go:45); colors as their hex values. -/
structure Theme where
  Main : Nat
  Dim : Nat
  Bright : Nat
deriving DecidableEq, Repr

/-- Go struct `SystemHistory` (baseline.go:83): five parallel sequences. -/
structure SystemHistory where
  CPU : List ℚ
  Memory : List ℚ
  Timestamps : List String
  NetworkIn : List Nat
  NetworkOut : List Nat
deriving DecidableEq, Repr

/-- Go struct `WeatherInfo` (baseline.go:91). -/
structure WeatherInfo where
  Location : String
  TempC : ℚ
  Condition : String
  Humidity : Int
  WindKph : ℚ
  Error : String
  LastUpdated : Int
deriving DecidableEq, Repr

/-- The mutable state fields of Go struct `Baseline` (baseline.go:103) that
the command dispatcher, input router and producers read or write; UI
handles, the lock, and provider bookkeeping fields are not part of the
specified state. -/
structure Baseline where
  todoItems : List TodoItem
  notifications : List Notification
  systemHistory : SystemHistory
  weatherInfo : WeatherInfo
  currentFocus : String
  commandHistory : List String
  theme : Theme
  weatherAPIKey : String
  weatherLocation : String
deriving DecidableEq, Repr

def amberTheme : Theme := ⟨0xFFBF00, 0xCC9900, 0xFFDF00⟩

def greenTheme : Theme := ⟨0x00FF00, 0x009900, 0xCCFFCC⟩

def blueTheme : Theme := ⟨0x00BFFF, 0x0099CC, 0x99CCFF⟩

/-- The `themes` map (baseline.go:51) as an association list.  Go map
iteration order is unspecified; the fixed order here only affects the order
in which the `theme` error message lists the available names, never which
names are listed. -/
def themes : List (String × Theme) :=
  [("amber", amberTheme), ("green", greenTheme), ("blue", blueTheme)]

/-- Keep the last `n` entries, dropping from the front — the
`xs = xs[len(xs)-n:]` idiom used for notifications (cap 5) and command
history (cap 20). -/
def capLast (n : Nat) (l : List α) : List α :=
  if l.length > n then l.drop (l.length - n) else l

/-- `addNotification` (baseline.go:989): append a notification carrying the
current timestamp, then keep only the last 5 entries. -/
def addNotification (now : Int) (message msgType : String) (st : Baseline) : Baseline :=
  { st with notifications := capLast 5 (st.notifications ++ [⟨message, msgType, now⟩]) }

def defaultTodo : TodoItem := ⟨"", false, ""⟩

/-- The `theme` command branch of `processCommand` (baseline.go:1040). -/
def themeCmd (now : Int) (args : List String) (st : Baseline) : Baseline :=
  match args with
  | [themeName] =>
    match themes.lookup themeName with
    | some newTheme =>
      addNotification now ("Theme changed to " ++ themeName) "success" { st with theme := newTheme }
    | none =>
      addNotification now
        ("Unknown theme: " ++ themeName ++ ". Available: " ++ joinComma (themes.map Prod.fst))
        "error" st
  | _ => addNotification now "Usage: theme <themename>" "error" st

/-- The `todo` command branches of `processCommand` (baseline.go:1057).
`saveTodos` (file persistence) is best-effort I/O and does not change the
in-memory state. -/
def todoCmd (now : Int) (args : List String) (st : Baseline) : Baseline :=
  match args with
  | [] => addNotification now "Todo commands: add, toggle, delete" "info" st
  | subCmd :: todoArgs =>
    if subCmd = "add" then
      match todoArgs with
      | [] => addNotification now "Usage: todo add <task text>" "error" st
      | _ =>
        let text := joinSp todoArgs
        addNotification now ("Added todo: " ++ text) "success"
          { st with todoItems := st.todoItems ++ [⟨text, false, "medium"⟩] }
    else if subCmd = "toggle" ∨ subCmd = "done" then
      match todoArgs with
      | [tok] =>
        match goAtoi tok with
        | some index =>
          if 1 ≤ index ∧ index ≤ (st.todoItems.length : Int) then
            let i := (index - 1).toNat
            let item := st.todoItems.getD i defaultTodo
            addNotification now ("Toggled todo #" ++ natToString index.toNat) "success"
              { st with todoItems := st.todoItems.set i { item with Done := !item.Done } }
          else addNotification now ("Invalid todo index: " ++ tok) "error" st
        | none => addNotification now ("Invalid todo index: " ++ tok) "error" st
      | _ => addNotification now "Usage: todo toggle <index>" "error" st
    else if subCmd = "delete" ∨ subCmd = "rm" then
      match todoArgs with
      | [tok] =>
        match goAtoi tok with
        | some index =>
          if 1 ≤ index ∧ index ≤ (st.todoItems.length : Int) then
            let i := (index - 1).toNat
            let deleted := st.todoItems.getD i defaultTodo
            addNotification now ("Deleted todo: " ++ deleted.Text) "success"
              { st with todoItems := st.todoItems.take i ++ st.todoItems.drop (i + 1) }
          else addNotification now ("Invalid todo index: " ++ tok) "error" st
        | none => addNotification now ("Invalid todo index: " ++ tok) "error" st
      | _ => addNotification now "Usage: todo delete <index>" "error" st
    else addNotification now ("Unknown todo command: " ++ subCmd) "error" st

/-- The `weather` command branch of `processCommand` (baseline.go:1108); the
out-of-band fetch it schedules is the separate transformer `fetchWeather`. -/
def weatherCmd (now : Int) (args : List String) (st : Baseline) : Baseline :=
  match args with
  | "set" :: rest =>
    match rest with
    | [] => addNotification now "Usage: weather set <location>" "error" st
    | _ =>
      let location := joinSp rest
      addNotification now ("Weather location set to: " ++ location ++ ". Fetching...") "success"
        { st with weatherLocation := location }
  | _ => addNotification now "Usage: weather set <location>" "error" st

/-- The verb switch of `processCommand` (baseline.go:1029).  `command` is
the full lowercased line (the default branch echoes it).  The `exit` family
only calls `app.Stop()` and mutates no state field; `clear` resets the
queue and then reports. -/
def dispatchCmd (now : Int) (command cmd : String) (args : List String) (st : Baseline) : Baseline :=
  if cmd = "help" ∨ cmd = "?" then
    addNotification now "Cmds: help, todo, weather, clear, exit, theme, shortcut" "info" st
  else if cmd = "exit" ∨ cmd = "quit" ∨ cmd = "q" then st
  else if cmd = "clear" then
    addNotification now "Notifications cleared" "success" { st with notifications := [] }
  else if cmd = "shortcut" then
    addNotification now "Shortcuts: N(ew), T(oggle), D(elete), P(rio), Q(uit), :(Cmd), ?(Help)" "info" st
  else if cmd = "theme" then themeCmd now args st
  else if cmd = "todo" then todoCmd now args st
  else if cmd = "weather" then weatherCmd now args st
  else addNotification now ("Unknown command: " ++ command) "error" st

/-- `processCommand` (baseline.go:1007): lowercase the whole line, trim it,
drop empty input unchanged, record the processed line in `commandHistory`
(capped at 20), then dispatch on the first whitespace-separated token.
A nonempty trimmed line always has a first field, so the `[]` arm of the
match is dead code. -/
def processCommand (now : Int) (command : String) (st : Baseline) : Baseline :=
  let command := goTrimSpace (goToLower command)
  if command = "" then st
  else
    let st := { st with commandHistory := capLast 20 (st.commandHistory ++ [command]) }
    match goFields command with
    | [] => st
    | cmd :: args => dispatchCmd now command cmd args st

/-- `historyLimit` (baseline.go:41). -/
def historyLimit : Nat := 60

/-- The trim step of `saveSystemHistory` (baseline.go:284).  Go drops with
`xs[len(xs)-historyLimit:]` per sequence, guarded by the CPU sequence's
length only; `List.drop` with truncated subtraction agrees with the Go
slice whenever the sequence has at least `historyLimit` entries (on a
shorter sequence Go would panic on a negative slice index — the invariant
theorems stay in the agreeing regime). -/
def trimHistory (h : SystemHistory) : SystemHistory :=
  if h.CPU.length > historyLimit then
    { CPU := h.CPU.drop (h.CPU.length - historyLimit)
      Memory := h.Memory.drop (h.Memory.length - historyLimit)
      Timestamps := h.Timestamps.drop (h.Timestamps.length - historyLimit)
      NetworkIn := h.NetworkIn.drop (h.NetworkIn.length - historyLimit)
      NetworkOut := h.NetworkOut.drop (h.NetworkOut.length - historyLimit) }
  else h

/-- The history-append step of `updateSystemInfo` (baseline.go:543-552)
followed by the save-time trim (`saveSystemHistory` runs inside the same
critical section): CPU, memory and the timestamp label are always appended;
the network counters only when the counters read returned data
(`net = some (bytesRecv, bytesSent)`). -/
def updateHistory (h : SystemHistory) (cpu mem : ℚ) (ts : String)
    (net : Option (Nat × Nat)) : SystemHistory :=
  let h' := { h with CPU := h.CPU ++ [cpu], Memory := h.Memory ++ [mem],
                     Timestamps := h.Timestamps ++ [ts] }
  match net with
  | some (rin, rout) =>
    trimHistory { h' with NetworkIn := h'.NetworkIn ++ [rin], NetworkOut := h'.NetworkOut ++ [rout] }
  | none => trimHistory h'

/-- All five parallel sequences of a `SystemHistory` have the same length. -/
def equalLengths (h : SystemHistory) : Prop :=
  h.CPU.length = h.Memory.length ∧ h.Memory.length = h.Timestamps.length ∧
  h.Timestamps.length = h.NetworkIn.length ∧ h.NetworkIn.length = h.NetworkOut.length

instance (h : SystemHistory) : Decidable (equalLengths h) := by
  unfold equalLengths; infer_instance

/-- Outcome of the external weather HTTP call in `fetchWeather`
(baseline.go:679-728): transport failure, non-200 status (with the API
error message when one was decoded from the body and nonempty), malformed
payload, or a decoded current-conditions payload. -/
inductive NetOutcome where
  | transportError (msg : String)
  | badStatus (code : Nat) (apiMsg : Option String)
  | parseError (msg : String)
  | ok (name : String) (tempC : ℚ) (condition : String) (humidity : Int) (windKph : ℚ)
deriving DecidableEq, Repr

/-- `fetchWeather` (baseline.go:660): build a fresh snapshot — sample data
plus an error marker when the API key is unset, otherwise from the HTTP
outcome — and commit it, fully replacing the previous snapshot.  The Go
zero value of `WeatherInfo` is the record `base` below before the branch
fills it in. -/
def fetchWeather (now : Int) (net : NetOutcome) (st : Baseline) : Baseline :=
  let location := st.weatherLocation
  let apiKey := st.weatherAPIKey
  let base : WeatherInfo :=
    { Location := location, TempC := 0, Condition := "", Humidity := 0,
      WindKph := 0, Error := "", LastUpdated := now }
  let fetched : WeatherInfo :=
    if apiKey = "" then
      { base with TempC := 22, Condition := "Partly Cloudy (Sample)",
                  Humidity := 65, WindKph := 8, Error := "API Key not set" }
    else
      match net with
      | .transportError msg => { base with Error := "HTTP error: " ++ msg }
      | .badStatus code apiMsg =>
        match apiMsg with
        | some m => { base with Error := "API error: " ++ m ++ " (" ++ natToString code ++ ")" }
        | none => { base with Error := "API error: Status " ++ natToString code }
      | .parseError msg => { base with Error := "JSON parse error: " ++ msg }
      | .ok name tempC condition humidity windKph =>
        { base with Location := name, TempC := tempC, Condition := condition,
                    Humidity := humidity, WindKph := windKph, Error := "" }
  { st with weatherInfo := fetched }

/-- The priority ranking of the todo sort comparator (baseline.go:868):
`high` 0, `medium` 1, `low` 2; anything unrecognized after lowercasing
defaults to 1 (medium). -/
def prioRank (p : String) : Nat :=
  match goToLower p with
  | "high" => 0
  | "medium" => 1
  | "low" => 2
  | _ => 1

/-- Stable insertion into a rank-sorted list: the new element goes before
every element of equal rank already present, because those entered the
sorted tail from later positions of the original slice. -/
def insertTodo (x : TodoItem) : List TodoItem → List TodoItem
  | [] => [x]
  | y :: ys =>
    if prioRank y.Priority < prioRank x.Priority then y :: insertTodo x ys
    else x :: y :: ys

/-- Result of `sort.SliceStable(b.todoItems, less)` with
`less i j ↔ prioRank i < prioRank j` (baseline.go:869): `SliceStable` is
specified to produce the unique stable sort of the slice, realized here as
stable insertion sort. -/
def sortTodos : List TodoItem → List TodoItem
  | [] => []
  | x :: xs => insertTodo x (sortTodos xs)

/-- `updateTodos` (baseline.go:863) as a state transformer: it sorts the
stored `todoItems` slice in place before formatting; the text rendering it
then produces is external to the state. -/
def updateTodos (st : Baseline) : Baseline :=
  { st with todoItems := sortTodos st.todoItems }

/-- Index of the first element satisfying `p` (the
`for i := range xs - if - break` idiom). -/
def findFirstIdx (p : α → Bool) : List α → Option Nat
  | [] => none
  | x :: xs => if p x then some 0 else (findFirstIdx p xs).map (· + 1)

/-- Index of the first not-done todo. -/
def firstPendingIdx (l : List TodoItem) : Option Nat := findFirstIdx (fun it => !it.Done) l

/-- The `priorities` slice of the `p` handler (baseline.go:1212). -/
def priorities : List String := ["low", "medium", "high"]

/-- The `p` shortcut of the dashboard input handler (baseline.go:1210):
cycle the priority of the first not-done todo through
low → medium → high → low.  When there is no pending todo — or, faithfully
to the code, when the pending todo's lowercased (empty-defaulted-to-medium)
priority is not one of the three known values, so `currentIdx` stays -1 —
nothing is cycled and the "no pending tasks" notice is pushed. -/
def handleKeyP (now : Int) (st : Baseline) : Baseline :=
  match firstPendingIdx st.todoItems with
  | none => addNotification now "No pending tasks to change priority." "info" st
  | some i =>
    let item := st.todoItems.getD i defaultTodo
    let cur := goToLower item.Priority
    let cur := if cur = "" then "medium" else cur
    match findFirstIdx (fun p => p == cur) priorities with
    | some idx =>
      let next := priorities.getD ((idx + 1) % priorities.length) ""
      addNotification now ("Priority set to " ++ next ++ " for: " ++ item.Text) "success"
        { st with todoItems := st.todoItems.set i { item with Priority := next } }
    | none => addNotification now "No pending tasks to change priority." "info" st

/-- Cycle successor on canonical priorities, the value table realized by the
`p` handler's `(currentIdx + 1) % len(priorities)` step. -/
def cycNext (p : String) : String :=
  if p = "low" then "medium" else if p = "medium" then "high" else "low"

/-- A concrete baseline state used by witness and counterexample theorems. -/
def sampleState : Baseline :=
  { todoItems := [], notifications := [], systemHistory := ⟨[], [], [], [], []⟩,
    weatherInfo := ⟨"Lahore", 0, "", 0, 0, "", 0⟩, currentFocus := "dashboard",
    commandHistory := [], theme := amberTheme, weatherAPIKey := "", weatherLocation := "Lahore" }

/-- A concrete state with a two-item todo list. -/
def sampleTodos : Baseline :=
  { sampleState with todoItems := [⟨"write spec", false, "low"⟩, ⟨"fix bug", true, "high"⟩] }

/-- A concrete state whose notification queue is full (length 5). -/
def sampleN5 : Baseline :=
  { sampleState with notifications :=
      [⟨"n1", "info", 1⟩, ⟨"n2", "info", 2⟩, ⟨"n3", "error", 3⟩,
       ⟨"n4", "success", 4⟩, ⟨"n5", "info", 5⟩] }

theorem char_toNat_ofNat (n : Nat) (h : n.isValidChar) : (Char.ofNat n).toNat = n := by
  unfold Char.ofNat
  rw [dif_pos h]
  simp [Char.ofNatAux, Char.toNat, UInt32.toNat]

theorem goToLowerChar_idem (c : Char) : goToLowerChar (goToLowerChar c) = goToLowerChar c := by
  unfold goToLowerChar
  split
  · rename_i h
    have hv : (c.toNat + 32).isValidChar := Or.inl (by omega)
    have ht : (Char.ofNat (c.toNat + 32)).toNat = c.toNat + 32 := char_toNat_ofNat _ hv
    rw [if_neg (by rw [ht]; omega)]
  · rfl

theorem map_fix (f : α → α) (l : List α) (h : ∀ c ∈ l, f c = c) : l.map f = l := by
  induction l with
  | nil => rfl
  | cons x xs ih =>
    rw [List.map_cons, h x (List.mem_cons_self x xs),
        ih fun c hc => h c (List.mem_cons_of_mem x hc)]

theorem map_self_comp (f : α → α) (hf : ∀ c, f (f c) = f c) (l : List α) :
    (l.map f).map f = l.map f := by
  induction l with
  | nil => rfl
  | cons x xs ih => simp [hf, ih]

theorem goToLower_idem (s : String) : goToLower (goToLower s) = goToLower s := by
  show (⟨(s.data.map goToLowerChar).map goToLowerChar⟩ : String) = ⟨s.data.map goToLowerChar⟩
  rw [map_self_comp goToLowerChar goToLowerChar_idem]

theorem processCommand_toLower (now : Int) (line : String) (st : Baseline) :
    processCommand now line st = processCommand now (goToLower line) st := by
  simp only [processCommand, goToLower_idem]

theorem goIsSpace_iff (c : Char) :
    goIsSpace c = true ↔ (c.toNat = 32 ∨ (9 ≤ c.toNat ∧ c.toNat ≤ 13)) := by
  simp [goIsSpace]

theorem goToLowerChar_space (c : Char) (h : goIsSpace c = true) : goToLowerChar c = c := by
  rw [goIsSpace_iff] at h
  unfold goToLowerChar
  rw [if_neg (by omega)]

theorem dropWhile_eq_nil_of_all (p : α → Bool) (l : List α) (h : ∀ x ∈ l, p x = true) :
    l.dropWhile p = [] := by
  induction l with
  | nil => rfl
  | cons x xs ih =>
    have hx := h x (List.mem_cons_self x xs)
    simp only [List.dropWhile, hx]
    exact ih fun y hy => h y (List.mem_cons_of_mem x hy)

theorem capLast_length (n : Nat) (l : List α) : (capLast n l).length = min n l.length := by
  unfold capLast
  split
  · rw [List.length_drop]; omega
  · omega

theorem capLast_getLast?_concat (n : Nat) (hn : 0 < n) (q : List α) (x : α) :
    (capLast n (q ++ [x])).getLast? = some x := by
  unfold capLast
  split
  · rw [List.drop_append_of_le_length (by simp; omega)]
    exact List.getLast?_concat _
  · exact List.getLast?_concat _

theorem capLast_eq_drop_concat (q : List α) (x : α) (h : q.length = 5) :
    capLast 5 (q ++ [x]) = q.drop 1 ++ [x] := by
  unfold capLast
  have hl : (q ++ [x]).length - 5 = 1 := by simp [h]
  rw [if_pos (by simp [h]), hl, List.drop_append_of_le_length (by omega)]

/-- C10: dispatching a command line that is empty or consists only of
whitespace is a complete no-op — the state (todo list, notifications,
command history, and every other field) is returned unchanged. -/
theorem blank_command_noop (now : Int) (line : String) (st : Baseline)
    (h : ∀ c ∈ line.data, goIsSpace c = true) :
    processCommand now line st = st := by
  have h1 : (goToLower line).data = line.data :=
    map_fix goToLowerChar line.data fun c hc => goToLowerChar_space c (h c hc)
  have h2 : goTrimSpace (goToLower line) = "" := by
    unfold goTrimSpace
    rw [h1, dropWhile_eq_nil_of_all goIsSpace line.data h]
    rfl
  unfold processCommand
  rw [h2]
  rfl

theorem blank_command_noop_check :
    (∀ c ∈ ("   " : String).data, goIsSpace c = true) ∧
    processCommand 0 "   " sampleState = sampleState :=
  ⟨by decide, blank_command_noop 0 "   " sampleState (by decide)⟩

/-- C4: pushing onto the notification queue keeps its length at most 5;
the pushed notification carries the supplied timestamp and becomes the last
entry; and pushing onto a full queue (length exactly 5) drops exactly the
oldest entry, preserving the relative order of the survivors. -/
theorem notificationQueue_bounded (now : Int) (message msgType : String) (st : Baseline) :
    ((addNotification now message msgType st).notifications).length ≤ 5 ∧
    ((addNotification now message msgType st).notifications).getLast?
      = some ⟨message, msgType, now⟩ ∧
    (st.notifications.length = 5 →
      (addNotification now message msgType st).notifications
        = st.notifications.drop 1 ++ [⟨message, msgType, now⟩]) := by
  refine ⟨?_, ?_, ?_⟩
  · show (capLast 5 (st.notifications ++ [_])).length ≤ 5
    rw [capLast_length]; omega
  · exact capLast_getLast?_concat 5 (by omega) _ _
  · intro h5
    exact capLast_eq_drop_concat _ _ h5

theorem notificationQueue_bounded_check :
    sampleN5.notifications.length = 5 ∧
    (((addNotification 9 "m" "info" sampleN5).notifications).length ≤ 5 ∧
     ((addNotification 9 "m" "info" sampleN5).notifications).getLast?
       = some ⟨"m", "info", 9⟩ ∧
     (sampleN5.notifications.length = 5 →
       (addNotification 9 "m" "info" sampleN5).notifications
         = sampleN5.notifications.drop 1 ++ [⟨"m", "info", 9⟩])) :=
  ⟨by decide, notificationQueue_bounded 9 "m" "info" sampleN5⟩

/-- C9: a weather fetch while the API key is unset produces, whatever the
network outcome, a snapshot with the fixed sample temperature/condition
values, a non-empty error string, and `LastUpdated` equal to the fetch
time; the snapshot fully replaces the previous one (the result is
independent of the old `weatherInfo`). -/
theorem weather_fetch_without_key (now : Int) (net : NetOutcome) (st : Baseline)
    (h : st.weatherAPIKey = "") :
    (fetchWeather now net st).weatherInfo
      = { Location := st.weatherLocation, TempC := 22,
          Condition := "Partly Cloudy (Sample)", Humidity := 65, WindKph := 8,
          Error := "API Key not set", LastUpdated := now } ∧
    (fetchWeather now net st).weatherInfo.Error ≠ "" := by
  have hfe : (fetchWeather now net st).weatherInfo
      = { Location := st.weatherLocation, TempC := 22,
          Condition := "Partly Cloudy (Sample)", Humidity := 65, WindKph := 8,
          Error := "API Key not set", LastUpdated := now } := by
    unfold fetchWeather
    rw [h]
    rfl
  refine ⟨hfe, ?_⟩
  rw [hfe]
  simp

theorem weather_fetch_without_key_check :
    sampleState.weatherAPIKey = "" ∧
    ((fetchWeather 3 (.transportError "boom") sampleState).weatherInfo
       = { Location := sampleState.weatherLocation, TempC := 22,
           Condition := "Partly Cloudy (Sample)", Humidity := 65, WindKph := 8,
           Error := "API Key not set", LastUpdated := 3 } ∧
     (fetchWeather 3 (.transportError "boom") sampleState).weatherInfo.Error ≠ "") :=
  ⟨rfl, weather_fetch_without_key 3 (.transportError "boom") sampleState rfl⟩

theorem updateHistory_some_eq (h : SystemHistory) (cpu mem : ℚ) (ts : String) (rin rout : Nat) :
    updateHistory h cpu mem ts (some (rin, rout))
      = trimHistory ⟨h.CPU ++ [cpu], h.Memory ++ [mem], h.Timestamps ++ [ts],
                     h.NetworkIn ++ [rin], h.NetworkOut ++ [rout]⟩ := rfl

theorem trimHistory_of_le (h : SystemHistory) (hc : h.CPU.length ≤ historyLimit) :
    trimHistory h = h := by
  unfold trimHistory
  rw [if_neg (by omega)]

theorem drop_one_concat (l : List α) (x : α) (hl : 0 < l.length) :
    (l ++ [x]).drop ((l ++ [x]).length - l.length) = l.drop 1 ++ [x] := by
  have hd : (l ++ [x]).length - l.length = 1 := by simp
  rw [hd, List.drop_append_of_le_length (by omega)]

/-- C2 (amended): provided the five sequences are of equal length at most 60
before the tick and the network-counters read succeeds, the append-and-trim
step keeps all five sequences of equal length at most 60, growing to
`min (len+1) 60`; when the cap is exceeded exactly the oldest entry of each
sequence is dropped (FIFO), and below the cap the entry is appended with
nothing dropped. -/
theorem metricHistory_parallel_bounded (h : SystemHistory) (cpu mem : ℚ) (ts : String)
    (rin rout : Nat) (he : equalLengths h) (hc : h.CPU.length ≤ 60) :
    equalLengths (updateHistory h cpu mem ts (some (rin, rout))) ∧
    (updateHistory h cpu mem ts (some (rin, rout))).CPU.length ≤ 60 ∧
    (updateHistory h cpu mem ts (some (rin, rout))).CPU.length = min (h.CPU.length + 1) 60 ∧
    (h.CPU.length < 60 →
      updateHistory h cpu mem ts (some (rin, rout))
        = ⟨h.CPU ++ [cpu], h.Memory ++ [mem], h.Timestamps ++ [ts],
           h.NetworkIn ++ [rin], h.NetworkOut ++ [rout]⟩) ∧
    (h.CPU.length = 60 →
      updateHistory h cpu mem ts (some (rin, rout))
        = ⟨h.CPU.drop 1 ++ [cpu], h.Memory.drop 1 ++ [mem], h.Timestamps.drop 1 ++ [ts],
           h.NetworkIn.drop 1 ++ [rin], h.NetworkOut.drop 1 ++ [rout]⟩) := by
  obtain ⟨e1, e2, e3, e4⟩ := he
  rw [updateHistory_some_eq]
  by_cases hL : h.CPU.length = 60
  · have hres : trimHistory ⟨h.CPU ++ [cpu], h.Memory ++ [mem], h.Timestamps ++ [ts],
                             h.NetworkIn ++ [rin], h.NetworkOut ++ [rout]⟩
        = ⟨h.CPU.drop 1 ++ [cpu], h.Memory.drop 1 ++ [mem], h.Timestamps.drop 1 ++ [ts],
           h.NetworkIn.drop 1 ++ [rin], h.NetworkOut.drop 1 ++ [rout]⟩ := by
      unfold trimHistory
      rw [if_pos (by simp [historyLimit, hL])]
      have hcap : historyLimit = h.CPU.length := by rw [hL]; rfl
      refine SystemHistory.mk.injEq _ _ _ _ _ _ _ _ _ _ ▸ ?_
      refine ⟨?_, ?_, ?_, ?_, ?_⟩
      · rw [hcap]; exact drop_one_concat _ _ (by omega)
      · rw [hcap, e1]; exact drop_one_concat _ _ (by omega)
      · rw [hcap, e1, e2]; exact drop_one_concat _ _ (by omega)
      · rw [hcap, e1, e2, e3]; exact drop_one_concat _ _ (by omega)
      · rw [hcap, e1, e2, e3, e4]; exact drop_one_concat _ _ (by omega)
    rw [hres]
    refine ⟨?_, ?_, ?_, ?_, ?_⟩
    · refine ⟨?_, ?_, ?_, ?_⟩ <;> simp <;> omega
    · simp; omega
    · simp; omega
    · intro hlt; omega
    · intro _; rfl
  · have hres : trimHistory ⟨h.CPU ++ [cpu], h.Memory ++ [mem], h.Timestamps ++ [ts],
                             h.NetworkIn ++ [rin], h.NetworkOut ++ [rout]⟩
        = ⟨h.CPU ++ [cpu], h.Memory ++ [mem], h.Timestamps ++ [ts],
           h.NetworkIn ++ [rin], h.NetworkOut ++ [rout]⟩ :=
      trimHistory_of_le _ (by simp [historyLimit]; omega)
    rw [hres]
    refine ⟨?_, ?_, ?_, ?_, ?_⟩
    · refine ⟨?_, ?_, ?_, ?_⟩ <;> simp <;> omega
    · simp; omega
    · simp; omega
    · intro _; rfl
    · intro heq; omega

/-- C2 (counterexample): one append step in which the network-counters read
returns no data (the guarded branch at baseline.go:548 is skipped) leaves
the CPU sequence one entry longer than the network sequences, so the five
sub-sequences do not all have equal length. -/
theorem metricHistory_parallel_fails_without_net :
    ¬ equalLengths (updateHistory ⟨[], [], [], [], []⟩ 0 0 "00:00:02" none) := by
  decide

theorem metricHistory_parallel_bounded_check :
    (equalLengths (⟨[1], [2], ["a"], [3], [4]⟩ : SystemHistory) ∧
      ([(1 : ℚ)] : List ℚ).length ≤ 60) ∧
    (equalLengths (updateHistory ⟨[1], [2], ["a"], [3], [4]⟩ 9 8 "b" (some (7, 6))) ∧
     (updateHistory ⟨[1], [2], ["a"], [3], [4]⟩ 9 8 "b" (some (7, 6))).CPU.length ≤ 60 ∧
     (updateHistory ⟨[1], [2], ["a"], [3], [4]⟩ 9 8 "b" (some (7, 6))).CPU.length
       = min (([(1 : ℚ)] : List ℚ).length + 1) 60 ∧
     (([(1 : ℚ)] : List ℚ).length < 60 →
       updateHistory ⟨[1], [2], ["a"], [3], [4]⟩ 9 8 "b" (some (7, 6))
         = ⟨[1] ++ [9], [2] ++ [8], ["a"] ++ ["b"], [3] ++ [7], [4] ++ [6]⟩) ∧
     (([(1 : ℚ)] : List ℚ).length = 60 →
       updateHistory ⟨[1], [2], ["a"], [3], [4]⟩ 9 8 "b" (some (7, 6))
         = ⟨([(1 : ℚ)] : List ℚ).drop 1 ++ [9], ([(2 : ℚ)] : List ℚ).drop 1 ++ [8],
            (["a"] : List String).drop 1 ++ ["b"], ([3] : List Nat).drop 1 ++ [7],
            ([4] : List Nat).drop 1 ++ [6]⟩)) :=
  ⟨⟨by decide, by decide⟩,
   metricHistory_parallel_bounded ⟨[1], [2], ["a"], [3], [4]⟩ 9 8 "b" 7 6
     (by decide) (by decide)⟩

theorem prioRank_cases (p : String) : prioRank p = 0 ∨ prioRank p = 1 ∨ prioRank p = 2 := by
  unfold prioRank
  split <;> simp

theorem insertTodo_pass (x : TodoItem) (A rest : List TodoItem)
    (hA : ∀ a ∈ A, prioRank a.Priority < prioRank x.Priority) :
    insertTodo x (A ++ rest) = A ++ insertTodo x rest := by
  induction A with
  | nil => rfl
  | cons a A ih =>
    simp only [List.cons_append, insertTodo, List.append_eq]
    rw [if_pos (hA a (List.mem_cons_self a A)),
        ih fun b hb => hA b (List.mem_cons_of_mem a hb)]

theorem insertTodo_front (x : TodoItem) (L : List TodoItem)
    (hL : ∀ y ∈ L, ¬ prioRank y.Priority < prioRank x.Priority) :
    insertTodo x L = x :: L := by
  cases L with
  | nil => rfl
  | cons y ys =>
    simp only [insertTodo]
    rw [if_neg (hL y (List.mem_cons_self y ys))]

theorem mem_filter_rank (l : List TodoItem) (k : Nat) (a : TodoItem)
    (ha : a ∈ l.filter (fun t => prioRank t.Priority == k)) : prioRank a.Priority = k := by
  have := List.of_mem_filter ha
  simpa using this

theorem sortTodos_filters (l : List TodoItem) :
    sortTodos l
      = l.filter (fun t => prioRank t.Priority == 0)
        ++ l.filter (fun t => prioRank t.Priority == 1)
        ++ l.filter (fun t => prioRank t.Priority == 2) := by
  induction l with
  | nil => rfl
  | cons x xs ih =>
    simp only [sortTodos, ih]
    rcases prioRank_cases x.Priority with h0 | h1 | h2
    · rw [insertTodo_front x _ (fun y _ => by omega)]
      simp [List.filter_cons, h0]
    · rw [List.append_assoc,
          insertTodo_pass x _ _ (fun a ha => by rw [mem_filter_rank xs 0 a ha, h1]; omega),
          insertTodo_front x _ (fun y hy => by
            rcases List.mem_append.1 hy with hy1 | hy2
            · rw [mem_filter_rank xs 1 y hy1, h1]; omega
            · rw [mem_filter_rank xs 2 y hy2, h1]; omega)]
      simp [List.filter_cons, h1]
    · rw [List.append_assoc,
          insertTodo_pass x _ _ (fun a ha => by rw [mem_filter_rank xs 0 a ha, h2]; omega)]
      rw [insertTodo_pass x _ _ (fun a ha => by rw [mem_filter_rank xs 1 a ha, h2]; omega),
          insertTodo_front x _ (fun y hy => by rw [mem_filter_rank xs 2 y hy, h2]; omega)]
      simp [List.filter_cons, h2]

theorem insertTodo_perm (x : TodoItem) (L : List TodoItem) :
    (insertTodo x L).Perm (x :: L) := by
  induction L with
  | nil => exact List.Perm.refl _
  | cons y ys ih =>
    simp only [insertTodo]
    split
    · exact (ih.cons y).trans (List.Perm.swap x y ys)
    · exact List.Perm.refl _

theorem sortTodos_perm (l : List TodoItem) : (sortTodos l).Perm l := by
  induction l with
  | nil => exact List.Perm.refl _
  | cons x xs ih => exact (insertTodo_perm x (sortTodos xs)).trans (ih.cons x)

/-- C3 (amended): rendering the todo panel sorts the stored `todoItems`
slice in place — afterwards the stored list is exactly the high-priority
items in their original relative order, then the medium ones (including any
unrecognized priority, which ranks as medium), then the low ones: the
stable priority sort (high → medium → low, ties by original order) of the
previous stored value, and in particular a permutation of it, but not in
general the untouched insertion order. -/
theorem updateTodos_sorts_stored_list (st : Baseline) :
    (updateTodos st).todoItems
      = st.todoItems.filter (fun t => prioRank t.Priority == 0)
        ++ st.todoItems.filter (fun t => prioRank t.Priority == 1)
        ++ st.todoItems.filter (fun t => prioRank t.Priority == 2) ∧
    (updateTodos st).todoItems.Perm st.todoItems :=
  ⟨sortTodos_filters st.todoItems, sortTodos_perm st.todoItems⟩

/-- C3 (counterexample): rendering the todo panel does not leave the stored
todo list in insertion order — `updateTodos` reorders a low-before-high
list in place. -/
theorem updateTodos_mutates_stored_list :
    (updateTodos { sampleState with
        todoItems := [⟨"write spec", false, "low"⟩, ⟨"fix bug", false, "high"⟩] }).todoItems
      ≠ [⟨"write spec", false, "low"⟩, ⟨"fix bug", false, "high"⟩] := by
  decide

theorem digitChar_digit (m : Nat) : 48 ≤ (digitChar m).toNat ∧ (digitChar m).toNat ≤ 57 := by
  unfold digitChar
  split <;> decide

theorem digitChar_toNat (m : Nat) (h : m < 10) : (digitChar m).toNat = 48 + m := by
  interval_cases m <;> decide

theorem natToDigitsAux_digits (n : Nat) : ∀ (acc : List Char),
    (∀ c ∈ acc, 48 ≤ c.toNat ∧ c.toNat ≤ 57) →
    ∀ c ∈ natToDigitsAux n acc, 48 ≤ c.toNat ∧ c.toNat ≤ 57 := by
  induction n using Nat.strong_induction_on with
  | _ n ih =>
    intro acc hacc c hc
    unfold natToDigitsAux at hc
    split at hc
    · rcases List.mem_cons.1 hc with h | h
      · subst h; exact digitChar_digit n
      · exact hacc c h
    · rename_i hge
      refine ih (n / 10) (Nat.div_lt_self (by omega) (by omega)) _ ?_ c hc
      intro d hd
      rcases List.mem_cons.1 hd with h | h
      · subst h; exact digitChar_digit _
      · exact hacc d h

theorem natToDigitsAux_ne_nil (n : Nat) : ∀ acc, natToDigitsAux n acc ≠ [] := by
  induction n using Nat.strong_induction_on with
  | _ n ih =>
    intro acc
    unfold natToDigitsAux
    split
    · simp
    · exact ih (n / 10) (Nat.div_lt_self (by omega) (by omega)) _

theorem parseDigitsLoop_natToDigitsAux (n : Nat) : ∀ (acc : List Char) (v : Nat),
    parseDigitsLoop (natToDigitsAux n acc) v = parseDigitsLoop acc (v * 10 ^ numDigits n + n) := by
  induction n using Nat.strong_induction_on with
  | _ n ih =>
    intro acc v
    unfold natToDigitsAux
    split
    · rename_i h
      rw [numDigits, dif_pos h]
      simp only [parseDigitsLoop]
      rw [if_pos (digitChar_digit n)]
      congr 1
      rw [digitChar_toNat n h, pow_one]
      omega
    · rename_i h
      rw [ih (n / 10) (Nat.div_lt_self (by omega) (by omega))]
      simp only [parseDigitsLoop]
      rw [if_pos (digitChar_digit _), digitChar_toNat (n % 10) (Nat.mod_lt _ (by omega))]
      congr 1
      have hnum : numDigits n = numDigits (n / 10) + 1 := by
        conv_lhs => rw [numDigits]
        rw [dif_neg h]
      rw [hnum, pow_succ, ← mul_assoc]
      generalize v * 10 ^ numDigits (n / 10) = w
      omega

theorem stringDataEq (s t : String) (h : s.data = t.data) : s = t := by
  cases s; cases t; simp only at h; rw [h]

theorem goAtoi_natToString (k : Nat) : goAtoi (natToString k) = some (k : Int) := by
  obtain ⟨c, cs, hcons⟩ : ∃ c cs, natToDigitsAux k [] = c :: cs := by
    cases h : natToDigitsAux k [] with
    | nil => exact absurd h (natToDigitsAux_ne_nil k [])
    | cons c cs => exact ⟨c, cs, rfl⟩
  have hdig : 48 ≤ c.toNat ∧ c.toNat ≤ 57 :=
    natToDigitsAux_digits k [] (by simp) c (by rw [hcons]; exact List.mem_cons_self c cs)
  have hplus : ¬ (c = '+') := fun h => by subst h; revert hdig; decide
  have hminus : ¬ (c = '-') := fun h => by subst h; revert hdig; decide
  show goAtoi ⟨natToDigitsAux k []⟩ = some (k : Int)
  unfold goAtoi
  simp only [hcons]
  rw [if_neg hplus, if_neg hminus]
  show (parseDigitsLoop (c :: cs) 0).map (fun n => (n : Int)) = some (k : Int)
  rw [← hcons, parseDigitsLoop_natToDigitsAux k [] 0]
  simp [parseDigitsLoop]

theorem digit_not_space (c : Char) (h : 48 ≤ c.toNat ∧ c.toNat ≤ 57) : goIsSpace c = false := by
  simp only [goIsSpace, decide_eq_false_iff_not]
  omega

theorem digit_lower_fix (c : Char) (h : 48 ≤ c.toNat ∧ c.toNat ≤ 57) : goToLowerChar c = c := by
  unfold goToLowerChar
  rw [if_neg (by omega)]

theorem dropWhile_cons_false (p : α → Bool) (x : α) (l : List α) (h : p x = false) :
    (x :: l).dropWhile p = x :: l := by
  simp [List.dropWhile, h]

theorem mem_of_getLast?_own (l : List α) (a : α) (h : l.getLast? = some a) : a ∈ l := by
  rw [← List.head?_reverse] at h
  have hm : a ∈ l.reverse := by
    cases hr : l.reverse with
    | nil => rw [hr] at h; cases h
    | cons b bs =>
      rw [hr] at h
      simp only [List.head?] at h
      cases h
      exact List.mem_cons_self _ _
  exact List.mem_reverse.1 hm

theorem trim_data_fix (l : List Char) (c1 : Char) (l1 : List Char)
    (hshape : l = c1 :: l1) (hh : goIsSpace c1 = false)
    (hl : ∀ c, l.getLast? = some c → goIsSpace c = false) :
    ((l.dropWhile goIsSpace).reverse.dropWhile goIsSpace).reverse = l := by
  subst hshape
  rw [dropWhile_cons_false _ _ _ hh]
  cases hrev : (c1 :: l1).reverse with
  | nil => simp at hrev
  | cons d ds =>
    have hd : goIsSpace d = false := by
      apply hl
      rw [← List.head?_reverse, hrev]
      rfl
    rw [dropWhile_cons_false _ _ _ hd, ← hrev, List.reverse_reverse]

theorem goTrimSpace_fix (s : String) (c1 : Char) (l1 : List Char)
    (hshape : s.data = c1 :: l1) (hh : goIsSpace c1 = false)
    (hl : ∀ c, s.data.getLast? = some c → goIsSpace c = false) :
    goTrimSpace s = s := by
  apply stringDataEq
  exact trim_data_fix s.data c1 l1 hshape hh hl

theorem goFieldsAux_word (ds : List Char) (hne : ds ≠ []) (hns : ∀ c ∈ ds, goIsSpace c = false) :
    ∀ acc, goFieldsAux ds acc = [acc.reverse ++ ds] := by
  induction ds with
  | nil => exact absurd rfl hne
  | cons c cs ih =>
    intro acc
    simp only [goFieldsAux]
    rw [if_neg (by simp [hns c (List.mem_cons_self c cs)])]
    by_cases hcs : cs = []
    · subst hcs
      simp [goFieldsAux]
    · rw [ih hcs (fun d hd => hns d (List.mem_cons_of_mem c hd)) (c :: acc)]
      simp

theorem goFieldsAux_word_space (w rest : List Char)
    (hne : w ≠ []) (hns : ∀ c ∈ w, goIsSpace c = false) :
    ∀ acc, goFieldsAux (w ++ ' ' :: rest) acc = (acc.reverse ++ w) :: goFieldsAux rest [] := by
  induction w with
  | nil => exact absurd rfl hne
  | cons c cs ih =>
    intro acc
    simp only [List.cons_append, goFieldsAux, List.append_eq]
    rw [if_neg (by simp [hns c (List.mem_cons_self c cs)])]
    by_cases hcs : cs = []
    · subst hcs
      simp only [List.nil_append, goFieldsAux]
      rw [if_pos (by decide), if_neg (by simp)]
      simp
    · rw [ih hcs (fun d hd => hns d (List.mem_cons_of_mem c hd)) (c :: acc)]
      simp

theorem processCommand_run (now : Int) (st : Baseline) (s cmd : String) (args : List String)
    (h1 : goTrimSpace (goToLower s) = s) (h2 : ¬ (s = ""))
    (h3 : goFields s = cmd :: args) :
    processCommand now s st
      = dispatchCmd now s cmd args
          { st with commandHistory := capLast 20 (st.commandHistory ++ [s]) } := by
  unfold processCommand
  simp only [h1, h3]
  rw [if_neg h2]

theorem natDigits_digit (k : Nat) : ∀ c ∈ natToDigitsAux k [], 48 ≤ c.toNat ∧ c.toNat ≤ 57 :=
  natToDigitsAux_digits k [] (by simp)

theorem getLast?_append_ne (l1 l2 : List α) (h : l2 ≠ []) :
    (l1 ++ l2).getLast? = l2.getLast? := by
  rw [List.getLast?_append]
  cases hl : l2.getLast? with
  | none => exact absurd (List.getLast?_eq_none_iff.1 hl) h
  | some a => rfl

theorem todo_delete_data (k : Nat) :
    ("todo delete " ++ natToString k).data
      = ['t','o','d','o'] ++ ' ' :: (['d','e','l','e','t','e'] ++ ' ' :: natToDigitsAux k []) := by
  rw [String.data_append]
  rfl

theorem todo_toggle_data (k : Nat) :
    ("todo toggle " ++ natToString k).data
      = ['t','o','d','o'] ++ ' ' :: (['t','o','g','g','l','e'] ++ ' ' :: natToDigitsAux k []) := by
  rw [String.data_append]
  rfl

theorem goFields_todo_delete (k : Nat) :
    goFields ("todo delete " ++ natToString k) = ["todo", "delete", natToString k] := by
  unfold goFields
  rw [todo_delete_data k,
      goFieldsAux_word_space ['t','o','d','o'] _ (by decide) (by decide) [],
      goFieldsAux_word_space ['d','e','l','e','t','e'] _ (by decide) (by decide) [],
      goFieldsAux_word (natToDigitsAux k []) (natToDigitsAux_ne_nil k [])
        (fun c hc => digit_not_space c (natDigits_digit k c hc)) []]
  rfl

theorem goFields_todo_toggle (k : Nat) :
    goFields ("todo toggle " ++ natToString k) = ["todo", "toggle", natToString k] := by
  unfold goFields
  rw [todo_toggle_data k,
      goFieldsAux_word_space ['t','o','d','o'] _ (by decide) (by decide) [],
      goFieldsAux_word_space ['t','o','g','g','l','e'] _ (by decide) (by decide) [],
      goFieldsAux_word (natToDigitsAux k []) (natToDigitsAux_ne_nil k [])
        (fun c hc => digit_not_space c (natDigits_digit k c hc)) []]
  rfl

theorem lower_fix_todo_delete (k : Nat) :
    goToLower ("todo delete " ++ natToString k) = "todo delete " ++ natToString k := by
  apply stringDataEq
  show ("todo delete " ++ natToString k).data.map goToLowerChar = _
  rw [todo_delete_data k]
  simp only [List.map_append, List.map_cons]
  rw [map_fix goToLowerChar (natToDigitsAux k [])
        (fun c hc => digit_lower_fix c (natDigits_digit k c hc))]
  rfl

theorem lower_fix_todo_toggle (k : Nat) :
    goToLower ("todo toggle " ++ natToString k) = "todo toggle " ++ natToString k := by
  apply stringDataEq
  show ("todo toggle " ++ natToString k).data.map goToLowerChar = _
  rw [todo_toggle_data k]
  simp only [List.map_append, List.map_cons]
  rw [map_fix goToLowerChar (natToDigitsAux k [])
        (fun c hc => digit_lower_fix c (natDigits_digit k c hc))]
  rfl

theorem trim_fix_todo_delete (k : Nat) :
    goTrimSpace ("todo delete " ++ natToString k) = "todo delete " ++ natToString k := by
  have hflat : ("todo delete " ++ natToString k).data
      = 't' :: (['o','d','o',' ','d','e','l','e','t','e',' '] ++ natToDigitsAux k []) := by
    rw [String.data_append]
    rfl
  apply goTrimSpace_fix _ 't' (['o','d','o',' ','d','e','l','e','t','e',' '] ++ natToDigitsAux k [])
    hflat (by decide)
  intro c hc
  rw [hflat] at hc
  have hlist : 't' :: (['o','d','o',' ','d','e','l','e','t','e',' '] ++ natToDigitsAux k [])
      = ['t','o','d','o',' ','d','e','l','e','t','e',' '] ++ natToDigitsAux k [] := rfl
  rw [hlist, getLast?_append_ne _ _ (natToDigitsAux_ne_nil k [])] at hc
  exact digit_not_space c (natDigits_digit k c (mem_of_getLast?_own _ _ hc))

theorem trim_fix_todo_toggle (k : Nat) :
    goTrimSpace ("todo toggle " ++ natToString k) = "todo toggle " ++ natToString k := by
  have hflat : ("todo toggle " ++ natToString k).data
      = 't' :: (['o','d','o',' ','t','o','g','g','l','e',' '] ++ natToDigitsAux k []) := by
    rw [String.data_append]
    rfl
  apply goTrimSpace_fix _ 't' (['o','d','o',' ','t','o','g','g','l','e',' '] ++ natToDigitsAux k [])
    hflat (by decide)
  intro c hc
  rw [hflat] at hc
  have hlist : 't' :: (['o','d','o',' ','t','o','g','g','l','e',' '] ++ natToDigitsAux k [])
      = ['t','o','d','o',' ','t','o','g','g','l','e',' '] ++ natToDigitsAux k [] := rfl
  rw [hlist, getLast?_append_ne _ _ (natToDigitsAux_ne_nil k [])] at hc
  exact digit_not_space c (natDigits_digit k c (mem_of_getLast?_own _ _ hc))

theorem todo_delete_ne_empty (k : Nat) : ¬ ("todo delete " ++ natToString k = "") := by
  intro h
  have hd := congrArg String.data h
  rw [todo_delete_data k] at hd
  simp at hd

theorem todo_toggle_ne_empty (k : Nat) : ¬ ("todo toggle " ++ natToString k = "") := by
  intro h
  have hd := congrArg String.data h
  rw [todo_toggle_data k] at hd
  simp at hd

theorem dispatchCmd_todo (now : Int) (command : String) (args : List String) (st : Baseline) :
    dispatchCmd now command "todo" args st = todoCmd now args st := by
  unfold dispatchCmd
  rw [if_neg (by decide), if_neg (by decide), if_neg (by decide), if_neg (by decide),
      if_neg (by decide), if_pos rfl]

theorem processCommand_todo_delete (now : Int) (st : Baseline) (k : Nat) :
    processCommand now ("todo delete " ++ natToString k) st
      = todoCmd now ["delete", natToString k]
          { st with commandHistory :=
              capLast 20 (st.commandHistory ++ ["todo delete " ++ natToString k]) } := by
  rw [processCommand_run now st _ "todo" ["delete", natToString k]
        (by rw [lower_fix_todo_delete k]; exact trim_fix_todo_delete k)
        (todo_delete_ne_empty k) (goFields_todo_delete k),
      dispatchCmd_todo]

theorem processCommand_todo_toggle (now : Int) (st : Baseline) (k : Nat) :
    processCommand now ("todo toggle " ++ natToString k) st
      = todoCmd now ["toggle", natToString k]
          { st with commandHistory :=
              capLast 20 (st.commandHistory ++ ["todo toggle " ++ natToString k]) } := by
  rw [processCommand_run now st _ "todo" ["toggle", natToString k]
        (by rw [lower_fix_todo_toggle k]; exact trim_fix_todo_toggle k)
        (todo_toggle_ne_empty k) (goFields_todo_toggle k),
      dispatchCmd_todo]

theorem todoCmd_delete_valid (now : Int) (st : Baseline) (k : Nat)
    (h1 : 1 ≤ k) (h2 : k ≤ st.todoItems.length) :
    todoCmd now ["delete", natToString k] st
      = addNotification now ("Deleted todo: " ++ (st.todoItems.getD (k - 1) defaultTodo).Text)
          "success"
          { st with todoItems := st.todoItems.take (k - 1) ++ st.todoItems.drop k } := by
  have hcast : 1 ≤ (k : Int) ∧ (k : Int) ≤ (st.todoItems.length : Int) := by
    constructor
    · exact_mod_cast h1
    · exact_mod_cast h2
  have hi : ((k : Int) - 1).toNat = k - 1 := by omega
  have hk1 : k - 1 + 1 = k := by omega
  simp only [todoCmd]
  rw [if_neg (by decide), if_neg (by decide), if_pos (by decide), goAtoi_natToString k]
  simp only []
  rw [if_pos hcast, hi, hk1]

theorem todoCmd_toggle_valid (now : Int) (st : Baseline) (k : Nat)
    (h1 : 1 ≤ k) (h2 : k ≤ st.todoItems.length) :
    todoCmd now ["toggle", natToString k] st
      = addNotification now ("Toggled todo #" ++ natToString k) "success"
          { st with todoItems := (st.todoItems.set (k - 1)
              { (st.todoItems.getD (k - 1) defaultTodo) with
                  Done := !(st.todoItems.getD (k - 1) defaultTodo).Done }) } := by
  have hcast : 1 ≤ (k : Int) ∧ (k : Int) ≤ (st.todoItems.length : Int) := by
    constructor
    · exact_mod_cast h1
    · exact_mod_cast h2
  have hi : ((k : Int) - 1).toNat = k - 1 := by omega
  have htn : ((k : Int)).toNat = k := by omega
  simp only [todoCmd]
  rw [if_neg (by decide), if_pos (by decide), goAtoi_natToString k]
  simp only []
  rw [if_pos hcast, hi, htn]

theorem todoCmd_delete_invalid (now : Int) (st : Baseline) (k : Nat)
    (hout : k = 0 ∨ st.todoItems.length < k) :
    todoCmd now ["delete", natToString k] st
      = addNotification now ("Invalid todo index: " ++ natToString k) "error" st := by
  have hcast : ¬ (1 ≤ (k : Int) ∧ (k : Int) ≤ (st.todoItems.length : Int)) := by
    rcases hout with h | h
    · subst h; simp
    · intro hx
      have : (k : Int) ≤ (st.todoItems.length : Int) := hx.2
      have : k ≤ st.todoItems.length := by exact_mod_cast this
      omega
  simp only [todoCmd]
  rw [if_neg (by decide), if_neg (by decide), if_pos (by decide), goAtoi_natToString k]
  simp only []
  rw [if_neg hcast]

theorem getD_append_left (l1 l2 : List α) (j : Nat) (d : α) (h : j < l1.length) :
    (l1 ++ l2).getD j d = l1.getD j d := by
  rw [List.getD_eq_getElem?_getD, List.getD_eq_getElem?_getD, List.getElem?_append_left h]

theorem getD_append_right (l1 l2 : List α) (j : Nat) (d : α) (h : l1.length ≤ j) :
    (l1 ++ l2).getD j d = l2.getD (j - l1.length) d := by
  rw [List.getD_eq_getElem?_getD, List.getD_eq_getElem?_getD, List.getElem?_append_right h]

theorem getD_take (l : List α) (n j : Nat) (d : α) (h : j < n) :
    (l.take n).getD j d = l.getD j d := by
  rw [List.getD_eq_getElem?_getD, List.getD_eq_getElem?_getD, List.getElem?_take_of_lt h]

theorem getD_drop (l : List α) (n j : Nat) (d : α) :
    (l.drop n).getD j d = l.getD (n + j) d := by
  rw [List.getD_eq_getElem?_getD, List.getD_eq_getElem?_getD, List.getElem?_drop]

theorem getD_set_self (l : List α) (i : Nat) (x : α) (d : α) (h : i < l.length) :
    (l.set i x).getD i d = x := by
  rw [List.getD_eq_getElem?_getD, List.getElem?_set_eq_of_lt x h]
  rfl

theorem set_getD_self (l : List α) (i : Nat) (d : α) (h : i < l.length) :
    l.set i (l.getD i d) = l := by
  induction l generalizing i with
  | nil => simp at h
  | cons x xs ih =>
    cases i with
    | zero => rfl
    | succ n =>
      simp only [List.getD_cons_succ, List.set_cons_succ]
      rw [ih n (by simpa using h)]

/-- C6: `todo delete <k>` with a valid 1-based index removes exactly one
element and shifts subsequent indices down by one, while `k = 0` and
`k = len + 1` are rejected with an error notification naming the bad index
and leave the todo list unchanged. -/
theorem todo_delete_behavior (now : Int) (st : Baseline) (k : Nat) :
    (1 ≤ k → k ≤ st.todoItems.length →
      (processCommand now ("todo delete " ++ natToString k) st).todoItems
          = st.todoItems.take (k - 1) ++ st.todoItems.drop k ∧
      (processCommand now ("todo delete " ++ natToString k) st).todoItems.length + 1
          = st.todoItems.length ∧
      (∀ j d, (processCommand now ("todo delete " ++ natToString k) st).todoItems.getD j d
          = if j < k - 1 then st.todoItems.getD j d else st.todoItems.getD (j + 1) d)) ∧
    ((k = 0 ∨ k = st.todoItems.length + 1) →
      (processCommand now ("todo delete " ++ natToString k) st).todoItems = st.todoItems ∧
      (processCommand now ("todo delete " ++ natToString k) st).notifications.getLast?
          = some ⟨"Invalid todo index: " ++ natToString k, "error", now⟩) := by
  constructor
  · intro h1 h2
    have heq : (processCommand now ("todo delete " ++ natToString k) st).todoItems
        = st.todoItems.take (k - 1) ++ st.todoItems.drop k := by
      rw [processCommand_todo_delete now st k,
          todoCmd_delete_valid now
            { st with commandHistory :=
                capLast 20 (st.commandHistory ++ ["todo delete " ++ natToString k]) }
            k h1 (show k ≤ _ from h2)]
      simp [addNotification]
    have hlen : (st.todoItems.take (k - 1)).length = k - 1 := by
      rw [List.length_take]
      omega
    refine ⟨heq, ?_, ?_⟩
    · rw [heq]
      simp only [List.length_append, List.length_drop, hlen]
      omega
    · intro j d
      rw [heq]
      by_cases hj : j < k - 1
      · rw [if_pos hj, getD_append_left _ _ _ _ (by omega), getD_take _ _ _ _ hj]
      · rw [if_neg hj, getD_append_right _ _ _ _ (by omega), getD_drop, hlen]
        have harith : k + (j - (k - 1)) = j + 1 := by omega
        rw [harith]
  · intro hout
    have hinv : processCommand now ("todo delete " ++ natToString k) st
        = addNotification now ("Invalid todo index: " ++ natToString k) "error"
            { st with commandHistory :=
                capLast 20 (st.commandHistory ++ ["todo delete " ++ natToString k]) } := by
      rw [processCommand_todo_delete now st k,
          todoCmd_delete_invalid now
            { st with commandHistory :=
                capLast 20 (st.commandHistory ++ ["todo delete " ++ natToString k]) }
            k ?_]
      rcases hout with h | h
      · exact Or.inl h
      · right
        show st.todoItems.length < k
        omega
    constructor
    · rw [hinv]
      simp [addNotification]
    · rw [hinv]
      show (capLast 5 (st.notifications ++ [_])).getLast? = _
      exact capLast_getLast?_concat 5 (by omega) _ _

theorem todo_delete_behavior_check :
    ((1 ≤ 1 ∧ (1 : Nat) ≤ sampleTodos.todoItems.length) ∧
      (processCommand 0 ("todo delete " ++ natToString 1) sampleTodos).todoItems
        = sampleTodos.todoItems.take 0 ++ sampleTodos.todoItems.drop 1) ∧
    ((0 = 0 ∨ (0 : Nat) = sampleTodos.todoItems.length + 1) ∧
      (processCommand 0 ("todo delete " ++ natToString 0) sampleTodos).todoItems
          = sampleTodos.todoItems ∧
      (processCommand 0 ("todo delete " ++ natToString 0) sampleTodos).notifications.getLast?
          = some ⟨"Invalid todo index: " ++ natToString 0, "error", 0⟩) :=
  ⟨⟨⟨by decide, by decide⟩,
     ((todo_delete_behavior 0 sampleTodos 1).1 (by decide) (by decide)).1⟩,
   ⟨Or.inl rfl, (todo_delete_behavior 0 sampleTodos 0).2 (Or.inl rfl)⟩⟩

theorem processCommand_toggle_items (now : Int) (s : Baseline) (k : Nat)
    (h1 : 1 ≤ k) (h2 : k ≤ s.todoItems.length) :
    (processCommand now ("todo toggle " ++ natToString k) s).todoItems
      = s.todoItems.set (k - 1)
          { (s.todoItems.getD (k - 1) defaultTodo) with
              Done := !(s.todoItems.getD (k - 1) defaultTodo).Done } := by
  rw [processCommand_todo_toggle now s k,
      todoCmd_toggle_valid now
        { s with commandHistory := capLast 20 (s.commandHistory ++ ["todo toggle " ++ natToString k]) }
        k h1 (show k ≤ _ from h2)]
  simp [addNotification]

/-- C7: `todo toggle <k>` at a valid 1-based index is its own inverse —
applying it twice leaves the stored todo list identical, and in particular
restores the original `done` value of the item at index `k`. -/
theorem todo_toggle_involutive (now1 now2 : Int) (st : Baseline) (k : Nat)
    (h1 : 1 ≤ k) (h2 : k ≤ st.todoItems.length) :
    (processCommand now2 ("todo toggle " ++ natToString k)
        (processCommand now1 ("todo toggle " ++ natToString k) st)).todoItems
      = st.todoItems ∧
    ((processCommand now2 ("todo toggle " ++ natToString k)
        (processCommand now1 ("todo toggle " ++ natToString k) st)).todoItems.getD
          (k - 1) defaultTodo).Done
      = (st.todoItems.getD (k - 1) defaultTodo).Done := by
  have hk1 : k - 1 < st.todoItems.length := by omega
  obtain ⟨tx, dn, pr, hm0⟩ : ∃ tx dn pr, st.todoItems.getD (k - 1) defaultTodo = ⟨tx, dn, pr⟩ :=
    ⟨_, _, _, rfl⟩
  have e1 := processCommand_toggle_items now1 st k h1 h2
  rw [hm0] at e1
  dsimp only at e1
  have h2b : k ≤ (processCommand now1 ("todo toggle " ++ natToString k) st).todoItems.length := by
    rw [e1, List.length_set]
    exact h2
  have e2 := processCommand_toggle_items now2
    (processCommand now1 ("todo toggle " ++ natToString k) st) k h1 h2b
  have hget : (processCommand now1 ("todo toggle " ++ natToString k) st).todoItems.getD
      (k - 1) defaultTodo = ⟨tx, !dn, pr⟩ := by
    rw [e1]
    exact getD_set_self _ _ _ _ hk1
  rw [hget] at e2
  dsimp only at e2
  rw [Bool.not_not] at e2
  have hfirst : (processCommand now2 ("todo toggle " ++ natToString k)
      (processCommand now1 ("todo toggle " ++ natToString k) st)).todoItems = st.todoItems := by
    rw [e2, e1, List.set_set, ← hm0]
    exact set_getD_self _ _ _ hk1
  exact ⟨hfirst, by rw [hfirst]⟩

theorem todo_toggle_involutive_check :
    (1 ≤ 1 ∧ (1 : Nat) ≤ sampleTodos.todoItems.length) ∧
    ((processCommand 4 ("todo toggle " ++ natToString 1)
        (processCommand 3 ("todo toggle " ++ natToString 1) sampleTodos)).todoItems
      = sampleTodos.todoItems ∧
    ((processCommand 4 ("todo toggle " ++ natToString 1)
        (processCommand 3 ("todo toggle " ++ natToString 1) sampleTodos)).todoItems.getD
          0 defaultTodo).Done
      = (sampleTodos.todoItems.getD 0 defaultTodo).Done) :=
  ⟨⟨by decide, by decide⟩, todo_toggle_involutive 3 4 sampleTodos 1 (by decide) (by decide)⟩

theorem processCommand_run2 (now : Int) (st : Baseline) (s s' cmd : String) (args : List String)
    (h1 : goTrimSpace (goToLower s) = s') (h2 : ¬ (s' = ""))
    (h3 : goFields s' = cmd :: args) :
    processCommand now s st
      = dispatchCmd now s' cmd args
          { st with commandHistory := capLast 20 (st.commandHistory ++ [s']) } := by
  unfold processCommand
  simp only [h1, h3]
  rw [if_neg h2]

/-- C1 (counterexample): the dispatcher lowercases the entire input line
before tokenizing, so the free text of `todo add Buy milk` is not
case-preserved — the stored item's text is `"buy milk"`, not `"Buy milk"`. -/
theorem todo_add_case_not_preserved :
    (processCommand 0 "todo add Buy milk" sampleState).todoItems
        = [⟨"buy milk", false, "medium"⟩] ∧
    (processCommand 0 "todo add Buy milk" sampleState).todoItems
        ≠ [⟨"Buy milk", false, "medium"⟩] := by
  decide

/-- C1 (amended): the command verb is matched case-insensitively because the
dispatcher lowercases the whole line (so dispatching any line is the same as
dispatching its lowercased form), but free-text arguments are lowercased
too: `todo add Buy milk` against an empty todo list yields exactly one item
`{text := "buy milk", done := false, priority := "medium"}` and the
notification queue's last entry has kind `success`. -/
theorem todo_add_scenario (now : Int) (st : Baseline) (h : st.todoItems = []) :
    (processCommand now "todo add Buy milk" st).todoItems
        = [⟨"buy milk", false, "medium"⟩] ∧
    (processCommand now "todo add Buy milk" st).notifications.getLast?
        = some ⟨"Added todo: buy milk", "success", now⟩ ∧
    (∀ (line : String) (st2 : Baseline),
      processCommand now line st2 = processCommand now (goToLower line) st2) := by
  have hpipe : processCommand now "todo add Buy milk" st
      = todoCmd now ["add", "buy", "milk"]
          { st with commandHistory := capLast 20 (st.commandHistory ++ ["todo add buy milk"]) } := by
    rw [processCommand_run2 now st "todo add Buy milk" "todo add buy milk" "todo"
          ["add", "buy", "milk"] (by decide) (by decide) (by decide),
        dispatchCmd_todo]
  have hred : todoCmd now ["add", "buy", "milk"]
        { st with commandHistory := capLast 20 (st.commandHistory ++ ["todo add buy milk"]) }
      = addNotification now "Added todo: buy milk" "success"
          { st with
              todoItems := st.todoItems ++ [⟨"buy milk", false, "medium"⟩],
              commandHistory := capLast 20 (st.commandHistory ++ ["todo add buy milk"]) } := by
    simp only [todoCmd]
    rw [if_pos (by decide)]
    rfl
  rw [hpipe, hred]
  refine ⟨?_, ?_, fun line st2 => processCommand_toLower now line st2⟩
  · simp [addNotification, h]
  · show (capLast 5 (st.notifications ++ [_])).getLast? = _
    exact capLast_getLast?_concat 5 (by omega) _ _

theorem todo_add_scenario_check :
    sampleState.todoItems = [] ∧
    ((processCommand 1 "todo add Buy milk" sampleState).todoItems
        = [⟨"buy milk", false, "medium"⟩] ∧
     (processCommand 1 "todo add Buy milk" sampleState).notifications.getLast?
        = some ⟨"Added todo: buy milk", "success", 1⟩ ∧
     (∀ (line : String) (st2 : Baseline),
       processCommand 1 line st2 = processCommand 1 (goToLower line) st2)) :=
  ⟨rfl, todo_add_scenario 1 sampleState rfl⟩

/-- C5: dispatching `theme bogus` (an unknown theme name) leaves the active
theme unchanged and pushes an error notification whose message lists
exactly the known theme names (amber, green and blue, in the embedding's
fixed enumeration order of the Go map). -/
theorem theme_unknown_rejected (now : Int) (st : Baseline) :
    (processCommand now "theme bogus" st).theme = st.theme ∧
    (processCommand now "theme bogus" st).notifications.getLast?
        = some ⟨"Unknown theme: bogus. Available: amber, green, blue", "error", now⟩ ∧
    themes.map Prod.fst = ["amber", "green", "blue"] := by
  have hpipe : processCommand now "theme bogus" st
      = themeCmd now ["bogus"]
          { st with commandHistory := capLast 20 (st.commandHistory ++ ["theme bogus"]) } := by
    rw [processCommand_run now st "theme bogus" "theme" ["bogus"]
          (by decide) (by decide) (by decide)]
    unfold dispatchCmd
    rw [if_neg (by decide), if_neg (by decide), if_neg (by decide), if_neg (by decide),
        if_pos rfl]
  have hred : themeCmd now ["bogus"]
        { st with commandHistory := capLast 20 (st.commandHistory ++ ["theme bogus"]) }
      = addNotification now "Unknown theme: bogus. Available: amber, green, blue" "error"
          { st with commandHistory := capLast 20 (st.commandHistory ++ ["theme bogus"]) } := by
    rfl
  rw [hpipe, hred]
  refine ⟨by simp [addNotification], ?_, rfl⟩
  show (capLast 5 (st.notifications ++ [_])).getLast? = _
  exact capLast_getLast?_concat 5 (by omega) _ _

theorem findFirstIdx_lt_length (p : α → Bool) (l : List α) (i : Nat)
    (h : findFirstIdx p l = some i) : i < l.length := by
  induction l generalizing i with
  | nil => cases h
  | cons x xs ih =>
    simp only [findFirstIdx] at h
    by_cases hp : p x
    · rw [if_pos hp] at h
      cases h
      simp
    · rw [if_neg hp] at h
      cases hfx : findFirstIdx p xs with
      | none => rw [hfx] at h; cases h
      | some j =>
        rw [hfx] at h
        simp only [Option.map_some', Option.some.injEq] at h
        have hj := ih j hfx
        simp only [List.length_cons]
        omega

theorem findFirstIdx_getD (p : α → Bool) (l : List α) (i : Nat) (d : α)
    (h : findFirstIdx p l = some i) : p (l.getD i d) = true := by
  induction l generalizing i with
  | nil => cases h
  | cons x xs ih =>
    simp only [findFirstIdx] at h
    by_cases hp : p x
    · rw [if_pos hp] at h
      cases h
      exact hp
    · rw [if_neg hp] at h
      cases hfx : findFirstIdx p xs with
      | none => rw [hfx] at h; cases h
      | some j =>
        rw [hfx] at h
        simp only [Option.map_some'] at h
        cases h
        simpa using ih j hfx

theorem findFirstIdx_set (p : α → Bool) (l : List α) (i : Nat) (x : α)
    (h : findFirstIdx p l = some i) (hx : p x = true) :
    findFirstIdx p (l.set i x) = some i := by
  induction l generalizing i with
  | nil => cases h
  | cons y ys ih =>
    simp only [findFirstIdx] at h
    by_cases hp : p y
    · rw [if_pos hp] at h
      cases h
      simp only [List.set_cons_zero, findFirstIdx]
      rw [if_pos hx]
    · rw [if_neg hp] at h
      cases hfx : findFirstIdx p ys with
      | none => rw [hfx] at h; cases h
      | some j =>
        rw [hfx] at h
        simp only [Option.map_some'] at h
        cases h
        simp only [List.set_cons_succ, findFirstIdx]
        rw [if_neg hp, ih j hfx]
        rfl

theorem handleKeyP_step (now : Int) (st : Baseline) (i : Nat) (tx pr : String)
    (hfind : firstPendingIdx st.todoItems = some i)
    (hitem : st.todoItems.getD i defaultTodo = ⟨tx, false, pr⟩)
    (hp : pr = "low" ∨ pr = "medium" ∨ pr = "high") :
    (handleKeyP now st).todoItems = st.todoItems.set i ⟨tx, false, cycNext pr⟩ ∧
    firstPendingIdx (handleKeyP now st).todoItems = some i ∧
    (handleKeyP now st).todoItems.getD i defaultTodo = ⟨tx, false, cycNext pr⟩ := by
  have hlt : i < st.todoItems.length := findFirstIdx_lt_length _ _ _ hfind
  have hmain : (handleKeyP now st).todoItems = st.todoItems.set i ⟨tx, false, cycNext pr⟩ := by
    unfold handleKeyP
    rw [hfind]
    dsimp only
    rw [hitem]
    rcases hp with h | h | h
    · subst h
      have hfi : findFirstIdx
          (fun p => p == (if goToLower "low" = "" then "medium" else goToLower "low"))
          priorities = some 0 := by decide
      rw [hfi]
      simp [addNotification, priorities, cycNext]
    · subst h
      have hfi : findFirstIdx
          (fun p => p == (if goToLower "medium" = "" then "medium" else goToLower "medium"))
          priorities = some 1 := by decide
      rw [hfi]
      simp [addNotification, priorities, cycNext]
    · subst h
      have hfi : findFirstIdx
          (fun p => p == (if goToLower "high" = "" then "medium" else goToLower "high"))
          priorities = some 2 := by decide
      rw [hfi]
      simp [addNotification, priorities, cycNext]
  refine ⟨hmain, ?_, ?_⟩
  · rw [hmain]
    unfold firstPendingIdx at hfind ⊢
    exact findFirstIdx_set _ _ _ _ hfind rfl
  · rw [hmain]
    exact getD_set_self _ _ _ _ hlt

/-- C8: the `p` shortcut cycles the priority of the first not-done todo
through low → medium → high → low; applying it three times restores the
item's original priority, for any of the three canonical starting
priorities. -/
theorem priority_cycle (now1 now2 now3 : Int) (st : Baseline) (i : Nat)
    (hfind : firstPendingIdx st.todoItems = some i)
    (hp : (st.todoItems.getD i defaultTodo).Priority ∈ priorities) :
    ((handleKeyP now3 (handleKeyP now2 (handleKeyP now1 st))).todoItems.getD i
        defaultTodo).Priority
      = (st.todoItems.getD i defaultTodo).Priority ∧
    ((handleKeyP now1 st).todoItems.getD i defaultTodo).Priority
      = cycNext (st.todoItems.getD i defaultTodo).Priority ∧
    cycNext "low" = "medium" ∧ cycNext "medium" = "high" ∧ cycNext "high" = "low" := by
  have hdone : (st.todoItems.getD i defaultTodo).Done = false := by
    have hfind' : findFirstIdx (fun it => !it.Done) st.todoItems = some i := hfind
    have := findFirstIdx_getD (fun it => !it.Done) st.todoItems i defaultTodo hfind'
    simpa using this
  obtain ⟨tx, dn, pr, hm0⟩ : ∃ tx dn pr, st.todoItems.getD i defaultTodo = ⟨tx, dn, pr⟩ :=
    ⟨_, _, _, rfl⟩
  have hdn : dn = false := by rw [hm0] at hdone; exact hdone
  subst hdn
  have hpr : pr = "low" ∨ pr = "medium" ∨ pr = "high" := by
    rw [hm0] at hp
    simpa [priorities] using hp
  have hpr2 : cycNext pr = "low" ∨ cycNext pr = "medium" ∨ cycNext pr = "high" := by
    rcases hpr with h | h | h <;> subst h <;> simp [cycNext]
  have hpr3 : cycNext (cycNext pr) = "low" ∨ cycNext (cycNext pr) = "medium"
      ∨ cycNext (cycNext pr) = "high" := by
    rcases hpr2 with h | h | h <;> rw [h] <;> simp [cycNext]
  have s1 := handleKeyP_step now1 st i tx pr hfind hm0 hpr
  have s2 := handleKeyP_step now2 (handleKeyP now1 st) i tx (cycNext pr) s1.2.1 s1.2.2 hpr2
  have s3 := handleKeyP_step now3 (handleKeyP now2 (handleKeyP now1 st)) i tx
    (cycNext (cycNext pr)) s2.2.1 s2.2.2 hpr3
  refine ⟨?_, ?_, rfl, rfl, rfl⟩
  · rw [s3.2.2, hm0]
    show cycNext (cycNext (cycNext pr)) = pr
    rcases hpr with h | h | h <;> subst h <;> rfl
  · rw [s1.2.2, hm0]

theorem priority_cycle_check :
    (firstPendingIdx sampleTodos.todoItems = some 0 ∧
      (sampleTodos.todoItems.getD 0 defaultTodo).Priority ∈ priorities) ∧
    (((handleKeyP 3 (handleKeyP 2 (handleKeyP 1 sampleTodos))).todoItems.getD 0
        defaultTodo).Priority
      = (sampleTodos.todoItems.getD 0 defaultTodo).Priority ∧
     ((handleKeyP 1 sampleTodos).todoItems.getD 0 defaultTodo).Priority
      = cycNext (sampleTodos.todoItems.getD 0 defaultTodo).Priority ∧
     cycNext "low" = "medium" ∧ cycNext "medium" = "high" ∧ cycNext "high" = "low") :=
  ⟨⟨by decide, by decide⟩, priority_cycle 1 2 3 sampleTodos 0 (by decide) (by decide)⟩
